import Mathlib

/-!
Shallow embedding of the `openshot::Cache` frame cache declared in
`src/include/Cache.h` (class `Cache`, fields `frames` and `frame_numbers`,
methods `Add`, `Clear`, `Count`, `GetFrame`, `GetBytes`, `GetSmallestFrame`,
`MoveToFront`, `Remove`, and the private `CleanUp`).

The repository ships only the header (declarations); the method bodies
(`Cache.cpp`) are not under `src/`.  Each operation below is therefore
modelled from the specification's description of its behavior (spec §3, §4.1,
§7), as noted in its doc comment.

Machine integers (`long int` frame numbers, `int64` byte counts) are modelled
as `Int`; counts as `Nat` where the C++ value is a container size.
`tr1::shared_ptr<Frame>` is modelled by the `Frame` value itself (the cache
holds one shared reference; reference counting is not observable at this
level), and an empty/null `shared_ptr` by `Option.none`.
-/

namespace OpenShot

/-- The external `Frame` collaborator: the cache only reads a stable integer
identity `frame_number` and a `byte_size` footprint (spec §3, §6). -/
structure Frame where
  frame_number : Int
  byte_size : Int
deriving DecidableEq, Repr

/-- The `Cache` state from `src/include/Cache.h` lines 50-51:
`map<long int, shared_ptr<Frame>> frames` (the index, modelled as an
association list with unique keys) and `deque<long int> frame_numbers`
(the recency sequence, head = front = most recently touched), plus the
configured `max_bytes` budget (0 = unbounded, spec §3). -/
structure Cache where
  frames : List (Int × Frame)
  frame_numbers : List Int
  max_bytes : Int
deriving DecidableEq, Repr

/-- The list of keys of the index. -/
def keys (c : Cache) : List Int := c.frames.map Prod.fst

/-- Erase the entry with key `k` from the index (a `map` holds at most one
entry per key). -/
def eraseKey (fs : List (Int × Frame)) (k : Int) : List (Int × Frame) :=
  fs.filter (fun p => p.1 != k)

/-- Modelled from the spec (§4.1 GetBytes; the body of `Cache::GetBytes` is
not under `src/`): sum of `byte_size` across all currently cached Frames. -/
def Cache.GetBytes (c : Cache) : Int :=
  (c.frames.map (fun p => p.2.byte_size)).sum

/-- Modelled from the spec (§4.1 Count; the body of `Cache::Count` is not
under `src/`): the number of cached frame numbers ("Count the frames in the
queue", `Cache.h` line 75). -/
def Cache.Count (c : Cache) : Nat := c.frame_numbers.length

/-- The eviction guard of `CleanUp` (spec §4.1): `max_bytes > 0`, total
cached bytes exceed `max_bytes`, and more than one frame remains cached. -/
def needsEvict (c : Cache) : Prop :=
  0 < c.max_bytes ∧ c.max_bytes < c.GetBytes ∧ 1 < c.frame_numbers.length

instance (c : Cache) : Decidable (needsEvict c) :=
  inferInstanceAs (Decidable (0 < c.max_bytes ∧ c.max_bytes < c.GetBytes ∧
    1 < c.frame_numbers.length))

/-- One eviction step of `CleanUp`, modelled from the spec (§4.1 CleanUp):
remove the entry at the back of `recency` (the least-recently-touched)
from both `recency` and `index`. -/
def evictOne (c : Cache) : Cache :=
  match c.frame_numbers.getLast? with
  | some victim =>
      { c with frame_numbers := c.frame_numbers.dropLast
               frames := eraseKey c.frames victim }
  | none => c

/-- Fuelled eviction loop, modelled from the spec (§4.1 CleanUp; the body of
`Cache::CleanUp` is not under `src/`): while `max_bytes > 0` and total cached
bytes exceed `max_bytes` and more than one frame remains cached, evict the
least-recently-touched entry.  Each pass shrinks `recency` by one, so
`recency.length` fuel always suffices. -/
def cleanupFuel : Nat → Cache → Cache
  | 0, c => c
  | n+1, c => if needsEvict c then cleanupFuel n (evictOne c) else c

/-- Modelled from the spec (§4.1 CleanUp, `Cache.h` lines 53-54): clean up
cached frames that exceed the max number of bytes.  Strict LRU with a floor
of one cached frame. -/
def Cache.CleanUp (c : Cache) : Cache := cleanupFuel c.frame_numbers.length c

/-- The state of the cache after the insert/replace part of `Add` (spec §4.1)
and before its eviction pass: the new binding is placed in the index (erasing
an absent key is the identity, so this is both the "not yet present: insert"
and the "already present: replace the stored reference" branch) and the frame
number is promoted to the front of `recency`. -/
def addRaw (c : Cache) (f : Frame) : Cache :=
  { c with frames := (f.frame_number, f) :: eraseKey c.frames f.frame_number
           frame_numbers := f.frame_number :: c.frame_numbers.erase f.frame_number }

/-- Modelled from the spec (§4.1 Add, `Cache.h` lines 68-70; the body of
`Cache::Add` is not under `src/`): insert (or replace, promoting) the frame,
then run the eviction algorithm (`CleanUp` is "invoked after any mutation
that can grow total bytes", and invariant §3.3 must hold "after any Add"). -/
def Cache.Add (c : Cache) (f : Frame) : Cache := Cache.CleanUp (addRaw c f)

/-- Modelled from the spec (§4.1 Clear): empties index and recency
unconditionally. -/
def Cache.Clear (c : Cache) : Cache :=
  { c with frames := [], frame_numbers := [] }

/-- Modelled from the spec (§4.1 GetFrame, `Cache.h` lines 78-80): the stored
reference at that key, or an empty/null reference (`none`) if absent; no side
effect. -/
def Cache.GetFrame (c : Cache) (frame_number : Int) : Option Frame :=
  (c.frames.find? (fun p => p.1 == frame_number)).map Prod.snd

/-- Modelled from the spec (§4.1 GetSmallestFrame, `Cache.h` lines 85-86):
the Frame with the numerically smallest `frame_number` currently cached
(a scan over index keys), or "cache empty" (`none`) if none exist. -/
def Cache.GetSmallestFrame (c : Cache) : Option Frame :=
  (c.frames.argmin Prod.fst).map Prod.snd

/-- Modelled from the spec (§4.1 MoveToFront, `Cache.h` lines 88-90): if
present, remove the frame number from its current position in `recency` and
reinsert it at the front; if absent, a no-op. -/
def Cache.MoveToFront (c : Cache) (frame_number : Int) : Cache :=
  if frame_number ∈ c.frame_numbers then
    { c with frame_numbers := frame_number :: c.frame_numbers.erase frame_number }
  else c

/-- Modelled from the spec (§4.1 Remove, `Cache.h` lines 92-94): if present,
erase from both index and recency; if absent, a no-op (erasing an absent key
is the identity, so both branches are the single expression below). -/
def Cache.Remove (c : Cache) (frame_number : Int) : Cache :=
  { c with frames := eraseKey c.frames frame_number
           frame_numbers := c.frame_numbers.erase frame_number }

/-- A fresh cache with the given byte budget (`Cache()` defaults to no max
bytes, i.e. 0 = unbounded). -/
def Cache.empty (max_bytes : Int) : Cache :=
  { frames := [], frame_numbers := [], max_bytes := max_bytes }

/-- Modelled from the spec (§7; the body of `Cache::Cache(int64)` is not
under `src/`): construction with a negative byte budget fails fast with an
explicit error signal; otherwise an empty cache with that budget results. -/
def Cache.create (max_bytes : Int) : Except String Cache :=
  if max_bytes < 0 then Except.error "Cache: negative max_bytes budget"
  else Except.ok (Cache.empty max_bytes)

/-- Method-call view of the const query `Count` (spec §4.1: queries have no
side effect): result paired with the post-call state. -/
def Cache.CountRun (c : Cache) : Nat × Cache := (c.Count, c)

/-- Method-call view of the const query `GetBytes` (spec §4.1: no side
effect): result paired with the post-call state. -/
def Cache.GetBytesRun (c : Cache) : Int × Cache := (c.GetBytes, c)

/-- Method-call view of the query `GetSmallestFrame` (spec §4.1: no side
effect, a key-order query that does not rely on recency): result paired with
the post-call state. -/
def Cache.GetSmallestFrameRun (c : Cache) : Option Frame × Cache :=
  (c.GetSmallestFrame, c)

/-- Method-call view of the query `GetFrame` (spec §4.1: "Side effect: none
(does not alter recency by itself)"): result paired with the post-call
state. -/
def Cache.GetFrameRun (c : Cache) (frame_number : Int) : Option Frame × Cache :=
  (c.GetFrame frame_number, c)

/-- Well-formedness: the structural invariants of spec §3 (invariants 1-2):
`recency` and the index keys are duplicate-free and key-bijective.  Stated
with list-bounded quantifiers so that it is decidable on concrete caches. -/
def WF (c : Cache) : Prop :=
  c.frame_numbers.Nodup ∧ (keys c).Nodup ∧
  (∀ k ∈ c.frame_numbers, k ∈ keys c) ∧
  (∀ k ∈ keys c, k ∈ c.frame_numbers)

instance (c : Cache) : Decidable (WF c) :=
  inferInstanceAs (Decidable (_ ∧ _ ∧ (∀ k ∈ c.frame_numbers, k ∈ keys c) ∧
    (∀ k ∈ keys c, k ∈ c.frame_numbers)))

example : (((Cache.empty 0).Add ⟨3, 10⟩)).Count = 1 := by decide
example : ((((Cache.empty 1000).Add ⟨1, 400⟩).Add ⟨2, 400⟩).Add ⟨3, 400⟩).Count = 2 := by
  decide
example : ((((Cache.empty 1000).Add ⟨1, 400⟩).Add ⟨2, 400⟩).Add ⟨3, 400⟩).GetFrame 1
    = none := by decide
example : ((((Cache.empty 0).Add ⟨5, 1⟩).Add ⟨2, 1⟩).Add ⟨9, 1⟩).GetSmallestFrame
    = some ⟨2, 1⟩ := by decide
example : WF ((((Cache.empty 1000).Add ⟨1, 400⟩).Add ⟨2, 400⟩).Add ⟨3, 400⟩) := by decide

/-! ### Helper lemmas about the index (association list) -/

theorem mem_eraseKey {fs : List (Int × Frame)} {k : Int} {p : Int × Frame} :
    p ∈ eraseKey fs k ↔ p ∈ fs ∧ p.1 ≠ k := by
  simp [eraseKey]

theorem mem_keys_eraseKey {fs : List (Int × Frame)} {k m : Int} :
    m ∈ (eraseKey fs k).map Prod.fst ↔ m ∈ fs.map Prod.fst ∧ m ≠ k := by
  constructor
  · intro hm
    rcases List.mem_map.1 hm with ⟨p, hp, rfl⟩
    rcases mem_eraseKey.1 hp with ⟨hpfs, hne⟩
    exact ⟨List.mem_map_of_mem _ hpfs, hne⟩
  · rintro ⟨hm, hne⟩
    rcases List.mem_map.1 hm with ⟨p, hp, rfl⟩
    exact List.mem_map_of_mem _ (mem_eraseKey.2 ⟨hp, hne⟩)

theorem eraseKey_sublist (fs : List (Int × Frame)) (k : Int) :
    List.Sublist (eraseKey fs k) fs :=
  List.filter_sublist fs

theorem nodup_keys_eraseKey {fs : List (Int × Frame)} (k : Int)
    (h : (fs.map Prod.fst).Nodup) : ((eraseKey fs k).map Prod.fst).Nodup :=
  List.Nodup.sublist ((eraseKey_sublist fs k).map Prod.fst) h

theorem find?_key_eq_some_iff {fs : List (Int × Frame)} {n : Int} {f : Frame}
    (h : (fs.map Prod.fst).Nodup) :
    fs.find? (fun p => p.1 == n) = some (n, f) ↔ (n, f) ∈ fs := by
  induction fs with
  | nil => simp
  | cons p fs ih =>
    simp only [List.map_cons, List.nodup_cons] at h
    obtain ⟨hp, ht⟩ := h
    by_cases hpn : p.1 = n
    · rw [List.find?_cons_of_pos _ (by simp [hpn])]
      constructor
      · intro h2
        rw [Option.some_inj] at h2
        rw [← h2]
        exact List.mem_cons_self p fs
      · intro h2
        rcases List.mem_cons.1 h2 with h3 | h3
        · rw [Option.some_inj, ← h3]
        · exact absurd (List.mem_map_of_mem Prod.fst h3) (hpn ▸ hp)
    · rw [List.find?_cons_of_neg _ (by simp [hpn])]
      rw [ih ht]
      constructor
      · intro h2
        exact List.mem_cons_of_mem _ h2
      · intro h2
        rcases List.mem_cons.1 h2 with h3 | h3
        · exact absurd (congrArg Prod.fst h3.symm) hpn
        · exact h3

theorem getFrame_eq_some_iff {c : Cache} {n : Int} {f : Frame}
    (h : (keys c).Nodup) : c.GetFrame n = some f ↔ (n, f) ∈ c.frames := by
  unfold Cache.GetFrame
  constructor
  · intro h2
    rcases Option.map_eq_some'.1 h2 with ⟨q, hq, hsnd⟩
    have hk := List.find?_some hq
    rw [beq_iff_eq] at hk
    have hmem : q ∈ c.frames := List.mem_of_find?_eq_some hq
    have hpe : q = (n, f) := Prod.ext hk hsnd
    rw [hpe] at hmem
    exact hmem
  · intro h2
    rw [(find?_key_eq_some_iff h).2 h2]
    rfl

theorem getFrame_eq_none_iff {c : Cache} {n : Int} :
    c.GetFrame n = none ↔ n ∉ keys c := by
  unfold Cache.GetFrame keys
  rw [Option.map_eq_none', List.find?_eq_none]
  constructor
  · intro h2 hmem
    rcases List.mem_map.1 hmem with ⟨p, hp, rfl⟩
    exact h2 p hp (by simp)
  · intro h2 p hp hkey
    rw [beq_iff_eq] at hkey
    exact h2 (hkey ▸ List.mem_map_of_mem Prod.fst hp)

/-! ### Helper lemmas about the recency sequence -/

theorem mem_cons_erase_iff {l : List Int} {n m : Int} (h : l.Nodup) :
    m ∈ n :: l.erase n ↔ m = n ∨ m ∈ l := by
  rw [List.mem_cons, h.mem_erase_iff]
  by_cases hmn : m = n <;> simp [hmn]

theorem nodup_cons_erase {l : List Int} (n : Int) (h : l.Nodup) :
    (n :: l.erase n).Nodup := by
  rw [List.nodup_cons]
  exact ⟨fun hmem => (h.mem_erase_iff.1 hmem).1 rfl, h.erase n⟩

theorem mem_dropLast_iff {l : List Int} {m : Int} (hne : l ≠ []) (h : l.Nodup) :
    m ∈ l.dropLast ↔ m ∈ l ∧ m ≠ l.getLast hne := by
  have hsplit : l.dropLast ++ [l.getLast hne] = l := List.dropLast_append_getLast hne
  have hnd : (l.dropLast ++ [l.getLast hne]).Nodup := by rw [hsplit]; exact h
  rw [List.nodup_append] at hnd
  obtain ⟨h1, h2, h3⟩ := hnd
  constructor
  · intro hm
    refine ⟨?_, ?_⟩
    · rw [← hsplit]
      exact List.mem_append_left _ hm
    · simpa using h3 hm
  · rintro ⟨hm, hne2⟩
    rw [← hsplit] at hm
    rcases List.mem_append.1 hm with h4 | h4
    · exact h4
    · simp at h4
      exact absurd h4 hne2

theorem head?_dropLast {l : List Int} (h : 1 < l.length) :
    l.dropLast.head? = l.head? := by
  cases l with
  | nil => simp at h
  | cons a t =>
    cases t with
    | nil => simp at h
    | cons b t2 => simp [List.dropLast_cons₂]

/-! ### Helper lemmas about eviction -/

theorem cf_stop {c : Cache} (h : ¬ needsEvict c) : ∀ n, cleanupFuel n c = c := by
  intro n
  cases n with
  | zero => rfl
  | succ n => simp [cleanupFuel, h]

theorem cf_step {c : Cache} (h : needsEvict c) (n : Nat) :
    cleanupFuel (n + 1) c = cleanupFuel n (evictOne c) := by
  simp [cleanupFuel, h]

theorem evictOne_eq {c : Cache} (hne : c.frame_numbers ≠ []) :
    evictOne c =
      { c with frame_numbers := c.frame_numbers.dropLast
               frames := eraseKey c.frames (c.frame_numbers.getLast hne) } := by
  unfold evictOne
  rw [List.getLast?_eq_getLast_of_ne_nil hne]

theorem evictOne_max (c : Cache) : (evictOne c).max_bytes = c.max_bytes := by
  unfold evictOne
  cases h : c.frame_numbers.getLast? <;> rfl

theorem evictOne_length {c : Cache} (hne : c.frame_numbers ≠ []) :
    (evictOne c).frame_numbers.length = c.frame_numbers.length - 1 := by
  rw [evictOne_eq hne]
  exact List.length_dropLast _

theorem evictOne_length_le (c : Cache) :
    (evictOne c).frame_numbers.length ≤ c.frame_numbers.length := by
  unfold evictOne
  cases h : c.frame_numbers.getLast?
  · exact le_refl _
  · simp only [List.length_dropLast]
    omega

theorem cleanupFuel_max (n : Nat) :
    ∀ c : Cache, (cleanupFuel n c).max_bytes = c.max_bytes := by
  induction n with
  | zero => intro c; rfl
  | succ n ih =>
    intro c
    by_cases h : needsEvict c
    · rw [cf_step h, ih, evictOne_max]
    · rw [cf_stop h]

theorem cleanupFuel_length_le (n : Nat) :
    ∀ c : Cache, (cleanupFuel n c).frame_numbers.length ≤ c.frame_numbers.length := by
  induction n with
  | zero => intro c; exact le_refl _
  | succ n ih =>
    intro c
    by_cases h : needsEvict c
    · rw [cf_step h]
      exact le_trans (ih _) (evictOne_length_le c)
    · rw [cf_stop h]

theorem cleanupFuel_post (n : Nat) :
    ∀ c : Cache, c.frame_numbers.length ≤ n → ¬ needsEvict (cleanupFuel n c) := by
  induction n with
  | zero =>
    intro c hlen hcontra
    have h3 : 1 < c.frame_numbers.length := hcontra.2.2
    omega
  | succ n ih =>
    intro c hlen
    by_cases h : needsEvict c
    · rw [cf_step h]
      have hne : c.frame_numbers ≠ [] := by
        intro h0
        have h3 : 1 < c.frame_numbers.length := h.2.2
        rw [h0] at h3
        simp at h3
      have hlen2 := evictOne_length hne
      exact ih _ (by omega)
    · rw [cf_stop h]
      exact h

theorem WF_evictOne {c : Cache} (hlen : 1 < c.frame_numbers.length) (h : WF c) :
    WF (evictOne c) := by
  have hne : c.frame_numbers ≠ [] := by
    intro h0; rw [h0] at hlen; simp at hlen
  obtain ⟨h1, h2, h3, h4⟩ := h
  rw [evictOne_eq hne]
  refine ⟨?_, ?_, ?_, ?_⟩
  · exact List.Nodup.sublist (List.dropLast_sublist _) h1
  · exact nodup_keys_eraseKey _ h2
  · intro m hm
    rcases (mem_dropLast_iff hne h1).1 hm with ⟨hm1, hm2⟩
    exact mem_keys_eraseKey.2 ⟨h3 m hm1, hm2⟩
  · intro m hm
    rcases mem_keys_eraseKey.1 hm with ⟨hm1, hm2⟩
    exact (mem_dropLast_iff hne h1).2 ⟨h4 m hm1, hm2⟩

theorem evictOne_keeps {c : Cache} {n : Int} {f : Frame}
    (hlen : 1 < c.frame_numbers.length)
    (h1 : c.frame_numbers.Nodup) (h2 : (keys c).Nodup)
    (h3 : c.frame_numbers.head? = some n) (h4 : (n, f) ∈ c.frames) :
    (evictOne c).frame_numbers.Nodup ∧ (keys (evictOne c)).Nodup ∧
    (evictOne c).frame_numbers.head? = some n ∧ (n, f) ∈ (evictOne c).frames := by
  have hne : c.frame_numbers ≠ [] := by
    intro h0; rw [h0] at hlen; simp at hlen
  have hd : c.frame_numbers.dropLast.head? = some n := by
    rw [head?_dropLast hlen, h3]
  have hmemdl : n ∈ c.frame_numbers.dropLast := List.mem_of_mem_head? (by simp [hd])
  have hnv : n ≠ c.frame_numbers.getLast hne := ((mem_dropLast_iff hne h1).1 hmemdl).2
  rw [evictOne_eq hne]
  exact ⟨List.Nodup.sublist (List.dropLast_sublist _) h1,
    nodup_keys_eraseKey _ h2, hd, mem_eraseKey.2 ⟨h4, hnv⟩⟩

theorem cleanupFuel_keeps (m : Nat) :
    ∀ (c : Cache) (n : Int) (f : Frame),
      c.frame_numbers.Nodup → (keys c).Nodup →
      c.frame_numbers.head? = some n → (n, f) ∈ c.frames →
      (cleanupFuel m c).frame_numbers.Nodup ∧ (keys (cleanupFuel m c)).Nodup ∧
      (cleanupFuel m c).frame_numbers.head? = some n ∧
      (n, f) ∈ (cleanupFuel m c).frames := by
  induction m with
  | zero => intro c n f h1 h2 h3 h4; exact ⟨h1, h2, h3, h4⟩
  | succ m ih =>
    intro c n f h1 h2 h3 h4
    by_cases hg : needsEvict c
    · rw [cf_step hg]
      obtain ⟨e1, e2, e3, e4⟩ := evictOne_keeps hg.2.2 h1 h2 h3 h4
      exact ih _ n f e1 e2 e3 e4
    · rw [cf_stop hg]
      exact ⟨h1, h2, h3, h4⟩

theorem WF_cleanupFuel (n : Nat) : ∀ c : Cache, WF c → WF (cleanupFuel n c) := by
  induction n with
  | zero => intro c h; exact h
  | succ n ih =>
    intro c h
    by_cases hg : needsEvict c
    · rw [cf_step hg]
      exact ih _ (WF_evictOne hg.2.2 h)
    · rw [cf_stop hg]
      exact h

theorem WF_CleanUp {c : Cache} (h : WF c) : WF c.CleanUp :=
  WF_cleanupFuel _ c h

theorem WF_addRaw {c : Cache} (h : WF c) (f : Frame) : WF (addRaw c f) := by
  obtain ⟨h1, h2, h3, h4⟩ := h
  unfold WF addRaw
  simp only [keys, List.map_cons]
  refine ⟨nodup_cons_erase _ h1, ?_, ?_, ?_⟩
  · rw [List.nodup_cons]
    refine ⟨fun hmem => ?_, nodup_keys_eraseKey _ h2⟩
    exact (mem_keys_eraseKey.1 hmem).2 rfl
  · intro m hm
    rcases (mem_cons_erase_iff h1).1 hm with hm | hm
    · exact List.mem_cons.2 (Or.inl hm)
    · by_cases hmn : m = f.frame_number
      · exact List.mem_cons.2 (Or.inl hmn)
      · exact List.mem_cons.2 (Or.inr (mem_keys_eraseKey.2 ⟨h3 m hm, hmn⟩))
  · intro m hm
    rcases List.mem_cons.1 hm with hm | hm
    · exact (mem_cons_erase_iff h1).2 (Or.inl hm)
    · exact (mem_cons_erase_iff h1).2 (Or.inr (h4 m (mem_keys_eraseKey.1 hm).1))

theorem WF_Add {c : Cache} (h : WF c) (f : Frame) : WF (c.Add f) :=
  WF_CleanUp (WF_addRaw h f)

theorem WF_Remove {c : Cache} (h : WF c) (k : Int) : WF (c.Remove k) := by
  obtain ⟨h1, h2, h3, h4⟩ := h
  unfold Cache.Remove
  refine ⟨h1.erase k, nodup_keys_eraseKey _ h2, ?_, ?_⟩
  · intro m hm
    rcases h1.mem_erase_iff.1 hm with ⟨hmk, hml⟩
    exact mem_keys_eraseKey.2 ⟨h3 m hml, hmk⟩
  · intro m hm
    rcases mem_keys_eraseKey.1 hm with ⟨hm1, hm2⟩
    exact h1.mem_erase_iff.2 ⟨hm2, h4 m hm1⟩

theorem WF_MoveToFront {c : Cache} (h : WF c) (k : Int) : WF (c.MoveToFront k) := by
  obtain ⟨h1, h2, h3, h4⟩ := h
  unfold Cache.MoveToFront
  by_cases hk : k ∈ c.frame_numbers
  · rw [if_pos hk]
    refine ⟨nodup_cons_erase _ h1, h2, ?_, ?_⟩
    · intro m hm
      rcases (mem_cons_erase_iff h1).1 hm with hm | hm
      · exact hm ▸ h3 k hk
      · exact h3 m hm
    · intro m hm
      exact (mem_cons_erase_iff h1).2 (Or.inr (h4 m hm))
  · rw [if_neg hk]
    exact ⟨h1, h2, h3, h4⟩

theorem WF_Clear (c : Cache) : WF (c.Clear) := by
  simp [WF, keys, Cache.Clear]

theorem count_eq_sizes {c : Cache} (h : WF c) :
    c.Count = c.frame_numbers.length ∧ c.Count = c.frames.length := by
  obtain ⟨h1, h2, h3, h4⟩ := h
  refine ⟨rfl, ?_⟩
  have hperm : c.frame_numbers.Perm (keys c) :=
    (List.perm_ext_iff_of_nodup h1 h2).2 (fun a => ⟨h3 a, h4 a⟩)
  have hlen := hperm.length_eq
  unfold Cache.Count
  rw [hlen]
  exact List.length_map _ _

theorem add_keeps {c : Cache} (h : WF c) (f : Frame) :
    (c.Add f).GetFrame f.frame_number = some f ∧
    (c.Add f).frame_numbers.head? = some f.frame_number ∧
    (c.Add f).max_bytes = c.max_bytes := by
  obtain ⟨h1, h2, h3, h4⟩ := WF_addRaw h f
  have hhead : (addRaw c f).frame_numbers.head? = some f.frame_number := rfl
  have hmem : (f.frame_number, f) ∈ (addRaw c f).frames := List.mem_cons_self _ _
  obtain ⟨k1, k2, k3, k4⟩ := cleanupFuel_keeps _ _ _ _ h1 h2 hhead hmem
  exact ⟨(getFrame_eq_some_iff k2).2 k4, k3, cleanupFuel_max _ _⟩

theorem cleanUp_strict_lt {c : Cache} (h : needsEvict c) :
    (c.CleanUp).frame_numbers.length < c.frame_numbers.length := by
  have hlen : 1 < c.frame_numbers.length := h.2.2
  have hne : c.frame_numbers ≠ [] := by
    intro h0; rw [h0] at hlen; simp at hlen
  obtain ⟨m, hm⟩ : ∃ m, c.frame_numbers.length = m + 1 :=
    ⟨c.frame_numbers.length - 1, by omega⟩
  unfold Cache.CleanUp
  rw [hm, cf_step h]
  have hle := cleanupFuel_length_le m (evictOne c)
  have heq := evictOne_length hne
  omega

theorem foldl_add_length (fs : List Frame) :
    ∀ c : Cache, c.max_bytes = 0 →
      (fs.map Frame.frame_number).Nodup →
      (∀ f ∈ fs, f.frame_number ∉ c.frame_numbers) →
      (fs.foldl Cache.Add c).frame_numbers.length = c.frame_numbers.length + fs.length := by
  induction fs with
  | nil => intro c h0 hnd hdisj; simp
  | cons f fs ih =>
    intro c h0 hnd hdisj
    simp only [List.foldl_cons]
    simp only [List.map_cons, List.nodup_cons] at hnd
    obtain ⟨hf, hnd⟩ := hnd
    have hnotmem : f.frame_number ∉ c.frame_numbers := hdisj f (List.mem_cons_self _ _)
    have hstop : ¬ needsEvict (addRaw c f) := by
      intro hcontra
      have hmb : (addRaw c f).max_bytes = 0 := h0
      have h01 := hcontra.1
      rw [hmb] at h01
      omega
    have hadd : c.Add f = addRaw c f := cf_stop hstop _
    rw [hadd]
    have herase : c.frame_numbers.erase f.frame_number = c.frame_numbers :=
      List.erase_of_not_mem hnotmem
    have hlen2 : (addRaw c f).frame_numbers.length = c.frame_numbers.length + 1 := by
      show (f.frame_number :: c.frame_numbers.erase f.frame_number).length = _
      rw [herase, List.length_cons]
    have hmb2 : (addRaw c f).max_bytes = 0 := h0
    have hdisj2 : ∀ g ∈ fs, g.frame_number ∉ (addRaw c f).frame_numbers := by
      intro g hg hgmem
      rw [show (addRaw c f).frame_numbers
            = f.frame_number :: c.frame_numbers.erase f.frame_number from rfl,
          herase] at hgmem
      rcases List.mem_cons.1 hgmem with h5 | h5
      · exact hf (h5 ▸ List.mem_map_of_mem Frame.frame_number hg)
      · exact hdisj g (List.mem_cons_of_mem _ hg) h5
    rw [ih (addRaw c f) hmb2 hnd hdisj2, hlen2, List.length_cons]
    omega

/-- C1: after every `Add`, if `max_bytes = 0` no eviction ever happens
(adding any list of distinctly numbered frames to a fresh unbounded cache
yields `Count = n`), and if `max_bytes > 0` then either the cached bytes fit
the budget or exactly one frame remains — and the just-added frame itself is
always still cached. -/
theorem C1_budget_invariant :
    (∀ fs : List Frame, (fs.map Frame.frame_number).Nodup →
      (fs.foldl Cache.Add (Cache.empty 0)).Count = fs.length) ∧
    (∀ (c : Cache) (f : Frame), WF c → 0 < c.max_bytes →
      (c.Add f).GetFrame f.frame_number = some f ∧
      ((c.Add f).GetBytes ≤ c.max_bytes ∨ (c.Add f).Count = 1)) := by
  constructor
  · intro fs hnd
    have h := foldl_add_length fs (Cache.empty 0) rfl hnd
      (by intro fr hfr h0; simp [Cache.empty] at h0)
    unfold Cache.Count
    rw [h]
    simp [Cache.empty]
  · intro c f hwf hpos
    obtain ⟨hget, hhead, hmax⟩ := add_keeps hwf f
    refine ⟨hget, ?_⟩
    have hnev : ¬ needsEvict (c.Add f) :=
      cleanupFuel_post _ (addRaw c f) (le_refl _)
    by_cases hb : (c.Add f).GetBytes ≤ c.max_bytes
    · exact Or.inl hb
    · right
      have hlen : ¬ 1 < (c.Add f).frame_numbers.length := by
        intro hlen
        exact hnev ⟨by rw [hmax]; exact hpos, by rw [hmax]; omega, hlen⟩
      have hge1 : 1 ≤ (c.Add f).frame_numbers.length := by
        cases hl : (c.Add f).frame_numbers with
        | nil => rw [hl] at hhead; simp at hhead
        | cons a t => simp only [List.length_cons]; omega
      unfold Cache.Count
      omega

/-- C2: the key-bijection invariant (`recency` and the index hold exactly the
same frame numbers, without duplicates) is preserved by `Add`, `Remove`,
`MoveToFront`, `Clear` and the internal `CleanUp`; `GetFrame` leaves the
state untouched; and `Count` equals the size of both structures. -/
theorem C2_bijection_invariant (c : Cache) (f : Frame) (k : Int) (h : WF c) :
    WF (c.Add f) ∧ WF (c.Remove k) ∧ WF (c.MoveToFront k) ∧ WF (c.Clear) ∧
    WF (c.CleanUp) ∧ (c.GetFrameRun k).2 = c ∧
    c.Count = c.frame_numbers.length ∧ c.Count = c.frames.length :=
  ⟨WF_Add h f, WF_Remove h k, WF_MoveToFront h k, WF_Clear c, WF_CleanUp h,
    rfl, (count_eq_sizes h).1, (count_eq_sizes h).2⟩

/-- C3: with a positive budget, frames A, B, C added in that order (distinct
frame numbers, none promoted) and byte sizes forcing exactly one eviction at
the third add, the evicted frame is A — the least-recently-touched one at the
back of the recency sequence — while B and C remain cached. -/
theorem C3_lru_evicts_least_recent (A B C : Frame) (M : Int)
    (hab : A.frame_number ≠ B.frame_number)
    (hac : A.frame_number ≠ C.frame_number)
    (hbc : B.frame_number ≠ C.frame_number)
    (hM : 0 < M)
    (hfit2 : A.byte_size + B.byte_size ≤ M)
    (hover : M < A.byte_size + B.byte_size + C.byte_size)
    (hfit2b : B.byte_size + C.byte_size ≤ M) :
    ((((Cache.empty M).Add A).Add B).Add C).GetFrame A.frame_number = none ∧
    ((((Cache.empty M).Add A).Add B).Add C).GetFrame B.frame_number = some B ∧
    ((((Cache.empty M).Add A).Add B).Add C).GetFrame C.frame_number = some C ∧
    ((((Cache.empty M).Add A).Add B).Add C).Count = 2 := by
  have hstop1 : ¬ needsEvict (⟨[(A.frame_number, A)], [A.frame_number], M⟩ : Cache) := by
    intro hcontra
    have hl := hcontra.2.2
    simp at hl
  have s1 : (Cache.empty M).Add A = ⟨[(A.frame_number, A)], [A.frame_number], M⟩ :=
    cf_stop hstop1 _
  have e1 : eraseKey [(A.frame_number, A)] B.frame_number = [(A.frame_number, A)] := by
    simp [eraseKey, hab]
  have e2 : [A.frame_number].erase B.frame_number = [A.frame_number] :=
    List.erase_of_not_mem (fun hmem => hab (List.mem_singleton.1 hmem).symm)
  have hraw2 : addRaw ⟨[(A.frame_number, A)], [A.frame_number], M⟩ B
      = ⟨[(B.frame_number, B), (A.frame_number, A)],
         [B.frame_number, A.frame_number], M⟩ := by
    unfold addRaw
    rw [e1, e2]
  have hstop2 : ¬ needsEvict (⟨[(B.frame_number, B), (A.frame_number, A)],
      [B.frame_number, A.frame_number], M⟩ : Cache) := by
    intro hcontra
    have hby := hcontra.2.1
    unfold Cache.GetBytes at hby
    simp at hby
    omega
  have s2 : ((Cache.empty M).Add A).Add B
      = ⟨[(B.frame_number, B), (A.frame_number, A)],
         [B.frame_number, A.frame_number], M⟩ := by
    rw [s1]
    unfold Cache.Add
    rw [hraw2]
    exact cf_stop hstop2 _
  have e3 : eraseKey [(B.frame_number, B), (A.frame_number, A)] C.frame_number
      = [(B.frame_number, B), (A.frame_number, A)] := by
    simp [eraseKey, hbc, hac]
  have e4 : [B.frame_number, A.frame_number].erase C.frame_number
      = [B.frame_number, A.frame_number] :=
    List.erase_of_not_mem (fun hmem => by
      rcases List.mem_cons.1 hmem with h5 | h5
      · exact hbc h5.symm
      · exact hac (List.mem_singleton.1 h5).symm)
  have hraw3 : addRaw ⟨[(B.frame_number, B), (A.frame_number, A)],
      [B.frame_number, A.frame_number], M⟩ C
      = ⟨[(C.frame_number, C), (B.frame_number, B), (A.frame_number, A)],
         [C.frame_number, B.frame_number, A.frame_number], M⟩ := by
    unfold addRaw
    rw [e3, e4]
  have hg3 : needsEvict (⟨[(C.frame_number, C), (B.frame_number, B), (A.frame_number, A)],
      [C.frame_number, B.frame_number, A.frame_number], M⟩ : Cache) := by
    refine ⟨hM, ?_, by simp⟩
    unfold Cache.GetBytes
    simp
    omega
  have he4 : evictOne (⟨[(C.frame_number, C), (B.frame_number, B), (A.frame_number, A)],
      [C.frame_number, B.frame_number, A.frame_number], M⟩ : Cache)
      = ⟨eraseKey [(C.frame_number, C), (B.frame_number, B), (A.frame_number, A)]
           A.frame_number,
         [C.frame_number, B.frame_number], M⟩ := rfl
  have e5 : eraseKey [(C.frame_number, C), (B.frame_number, B), (A.frame_number, A)]
      A.frame_number = [(C.frame_number, C), (B.frame_number, B)] := by
    simp [eraseKey, Ne.symm hac, Ne.symm hab]
  have hstop4 : ¬ needsEvict (⟨[(C.frame_number, C), (B.frame_number, B)],
      [C.frame_number, B.frame_number], M⟩ : Cache) := by
    intro hcontra
    have hby := hcontra.2.1
    unfold Cache.GetBytes at hby
    simp at hby
    omega
  have s3 : (((Cache.empty M).Add A).Add B).Add C
      = ⟨[(C.frame_number, C), (B.frame_number, B)],
         [C.frame_number, B.frame_number], M⟩ := by
    rw [s2]
    unfold Cache.Add
    rw [hraw3]
    calc Cache.CleanUp (⟨[(C.frame_number, C), (B.frame_number, B), (A.frame_number, A)],
          [C.frame_number, B.frame_number, A.frame_number], M⟩ : Cache)
        = cleanupFuel 2 (evictOne ⟨[(C.frame_number, C), (B.frame_number, B),
            (A.frame_number, A)], [C.frame_number, B.frame_number, A.frame_number], M⟩) :=
          cf_step hg3 2
      _ = cleanupFuel 2 ⟨[(C.frame_number, C), (B.frame_number, B)],
            [C.frame_number, B.frame_number], M⟩ := by rw [he4, e5]
      _ = ⟨[(C.frame_number, C), (B.frame_number, B)],
            [C.frame_number, B.frame_number], M⟩ := cf_stop hstop4 2
  rw [s3]
  refine ⟨?_, ?_, ?_, rfl⟩
  · unfold Cache.GetFrame
    simp [Ne.symm hac, Ne.symm hab]
  · unfold Cache.GetFrame
    simp [Ne.symm hbc]
  · unfold Cache.GetFrame
    simp

/-- C4: on an empty cache `GetSmallestFrame` returns the empty result; on a
non-empty cache it returns a stored frame whose key is minimal among all
cached keys (hence independent of insertion order and of the recency
ordering). -/
theorem C4_smallest_frame (c : Cache) :
    (c.frames = [] → c.GetSmallestFrame = none) ∧
    (c.frames ≠ [] → ∃ p : Int × Frame, p ∈ c.frames ∧
      c.GetSmallestFrame = some p.2 ∧ ∀ q ∈ c.frames, p.1 ≤ q.1) := by
  constructor
  · intro h
    unfold Cache.GetSmallestFrame
    rw [h]
    rfl
  · intro h
    unfold Cache.GetSmallestFrame
    cases hm : c.frames.argmin Prod.fst with
    | none => exact absurd (List.argmin_eq_none.1 hm) h
    | some p =>
      have hmem : p ∈ c.frames.argmin Prod.fst := by rw [hm]; rfl
      refine ⟨p, List.argmin_mem hmem, rfl, ?_⟩
      intro q hq
      exact List.le_of_mem_argmin hq hmem

/-- C5: `GetBytes` is the sum of `byte_size` over all cached frames, and it
is exactly the quantity `CleanUp`'s guard compares against `max_bytes`:
`CleanUp` is the identity precisely when the guard (`max_bytes > 0` and
`GetBytes > max_bytes` and more than one frame cached) fails. -/
theorem C5_getbytes_cleanup_quantity (c : Cache) :
    c.GetBytes = (c.frames.map (fun p => p.2.byte_size)).sum ∧
    (¬ needsEvict c → c.CleanUp = c) ∧
    (needsEvict c → c.CleanUp ≠ c) := by
  refine ⟨rfl, ?_, ?_⟩
  · intro h
    exact cf_stop h _
  · intro h hcontra
    have hlt := cleanUp_strict_lt h
    rw [hcontra] at hlt
    omega

/-- C6: re-adding an already-cached frame number replaces the stored
reference with the new frame, promotes the key to the front of the recency
sequence, raises no error (the operation is total), and keeps both
structures duplicate-free. -/
theorem C6_readd_replaces_promotes (c : Cache) (f : Frame) (h : WF c)
    (_hmem : f.frame_number ∈ keys c) :
    (c.Add f).GetFrame f.frame_number = some f ∧
    (c.Add f).frame_numbers.head? = some f.frame_number ∧
    WF (c.Add f) :=
  ⟨(add_keeps h f).1, (add_keeps h f).2.1, WF_Add h f⟩

/-- C7: `GetFrame` returns exactly the stored reference when the key is
cached and the empty reference on a miss, and the call leaves the cache
state (index, recency, budget) unchanged. -/
theorem C7_getframe_miss_semantics (c : Cache) (k : Int) (f : Frame)
    (h : (keys c).Nodup) :
    (c.GetFrame k = some f ↔ (k, f) ∈ c.frames) ∧
    (c.GetFrame k = none ↔ k ∉ keys c) ∧
    (c.GetFrameRun k).2 = c :=
  ⟨getFrame_eq_some_iff h, getFrame_eq_none_iff, rfl⟩

/-- C8: constructing a cache with a negative byte budget signals an explicit
error at construction time; a non-negative budget yields the empty cache
with that budget. -/
theorem C8_negative_budget_fails (mb : Int) :
    (mb < 0 → Cache.create mb = Except.error "Cache: negative max_bytes budget") ∧
    (0 ≤ mb → Cache.create mb = Except.ok (Cache.empty mb)) := by
  constructor
  · intro h
    unfold Cache.create
    rw [if_pos h]
  · intro h
    unfold Cache.create
    rw [if_neg (by omega)]

/-- C9: `MoveToFront` on an absent key is a no-op (and raises no error); on a
present key it moves exactly that key to the front of the recency sequence
and touches nothing else; and promotion is idempotent. -/
theorem C9_movetofront_noop_idempotent (c : Cache) (k : Int) :
    (k ∉ c.frame_numbers → c.MoveToFront k = c) ∧
    (k ∈ c.frame_numbers →
      (c.MoveToFront k).frame_numbers = k :: c.frame_numbers.erase k ∧
      (c.MoveToFront k).frames = c.frames) ∧
    (c.MoveToFront k).MoveToFront k = c.MoveToFront k := by
  refine ⟨?_, ?_, ?_⟩
  · intro h
    unfold Cache.MoveToFront
    rw [if_neg h]
  · intro h
    unfold Cache.MoveToFront
    rw [if_pos h]
    exact ⟨rfl, rfl⟩
  · by_cases h : k ∈ c.frame_numbers
    · have h2 : c.MoveToFront k
          = { c with frame_numbers := k :: c.frame_numbers.erase k } := by
        unfold Cache.MoveToFront
        rw [if_pos h]
      rw [h2]
      unfold Cache.MoveToFront
      rw [if_pos (List.mem_cons_self _ _)]
      rw [List.erase_cons_head]
    · have h2 : c.MoveToFront k = c := by
        unfold Cache.MoveToFront
        rw [if_neg h]
      rw [h2]
      exact h2

/-- C10: the queries `Count`, `GetBytes` and `GetSmallestFrame` leave the
cache state unchanged (method-call views return the state as received), and
each depends only on the component it reads: `GetSmallestFrame`/`GetBytes`
only on the index (so `GetSmallestFrame` cannot promote anything in the
recency ordering) and `Count` only on the recency sequence. -/
theorem C10_queries_pure (c : Cache) :
    (c.CountRun.2 = c ∧ c.GetBytesRun.2 = c ∧ c.GetSmallestFrameRun.2 = c) ∧
    (∀ d : Cache, d.frames = c.frames →
      d.GetSmallestFrame = c.GetSmallestFrame ∧ d.GetBytes = c.GetBytes) ∧
    (∀ d : Cache, d.frame_numbers = c.frame_numbers → d.Count = c.Count) := by
  refine ⟨⟨rfl, rfl, rfl⟩, ?_, ?_⟩
  · intro d hd
    constructor
    · unfold Cache.GetSmallestFrame
      rw [hd]
    · unfold Cache.GetBytes
      rw [hd]
  · intro d hd
    unfold Cache.Count
    rw [hd]

/-! ### Concrete witnesses -/

theorem C1_budget_invariant_witness :
    (([⟨1, 5⟩, ⟨2, 6⟩, ⟨3, 7⟩] : List Frame).foldl Cache.Add (Cache.empty 0)).Count = 3 ∧
    ((((Cache.empty 100).Add ⟨1, 60⟩).Add ⟨2, 60⟩).GetFrame 2 = some ⟨2, 60⟩ ∧
      ((((Cache.empty 100).Add ⟨1, 60⟩).Add ⟨2, 60⟩).GetBytes ≤ 100 ∨
        (((Cache.empty 100).Add ⟨1, 60⟩).Add ⟨2, 60⟩).Count = 1)) :=
  ⟨C1_budget_invariant.1 [⟨1, 5⟩, ⟨2, 6⟩, ⟨3, 7⟩] (by decide),
   C1_budget_invariant.2 ((Cache.empty 100).Add ⟨1, 60⟩) ⟨2, 60⟩ (by decide) (by decide)⟩

theorem C2_bijection_invariant_witness :
    WF (((Cache.empty 0).Add ⟨7, 10⟩).Add ⟨8, 20⟩) ∧
    (WF ((((Cache.empty 0).Add ⟨7, 10⟩).Add ⟨8, 20⟩).Add ⟨9, 30⟩) ∧
     WF ((((Cache.empty 0).Add ⟨7, 10⟩).Add ⟨8, 20⟩).Remove 7) ∧
     WF ((((Cache.empty 0).Add ⟨7, 10⟩).Add ⟨8, 20⟩).MoveToFront 7) ∧
     WF ((((Cache.empty 0).Add ⟨7, 10⟩).Add ⟨8, 20⟩).Clear) ∧
     WF ((((Cache.empty 0).Add ⟨7, 10⟩).Add ⟨8, 20⟩).CleanUp) ∧
     ((((Cache.empty 0).Add ⟨7, 10⟩).Add ⟨8, 20⟩).GetFrameRun 7).2
        = ((Cache.empty 0).Add ⟨7, 10⟩).Add ⟨8, 20⟩ ∧
     (((Cache.empty 0).Add ⟨7, 10⟩).Add ⟨8, 20⟩).Count
        = (((Cache.empty 0).Add ⟨7, 10⟩).Add ⟨8, 20⟩).frame_numbers.length ∧
     (((Cache.empty 0).Add ⟨7, 10⟩).Add ⟨8, 20⟩).Count
        = (((Cache.empty 0).Add ⟨7, 10⟩).Add ⟨8, 20⟩).frames.length) :=
  ⟨by decide, C2_bijection_invariant _ ⟨9, 30⟩ 7 (by decide)⟩

theorem C3_lru_evicts_least_recent_witness :
    ((((Cache.empty 1000).Add ⟨1, 400⟩).Add ⟨2, 400⟩).Add ⟨3, 400⟩).GetFrame 1 = none ∧
    ((((Cache.empty 1000).Add ⟨1, 400⟩).Add ⟨2, 400⟩).Add ⟨3, 400⟩).GetFrame 2
      = some ⟨2, 400⟩ ∧
    ((((Cache.empty 1000).Add ⟨1, 400⟩).Add ⟨2, 400⟩).Add ⟨3, 400⟩).GetFrame 3
      = some ⟨3, 400⟩ ∧
    ((((Cache.empty 1000).Add ⟨1, 400⟩).Add ⟨2, 400⟩).Add ⟨3, 400⟩).Count = 2 :=
  C3_lru_evicts_least_recent ⟨1, 400⟩ ⟨2, 400⟩ ⟨3, 400⟩ 1000 (by decide) (by decide)
    (by decide) (by decide) (by decide) (by decide) (by decide)

theorem C4_smallest_frame_witness :
    ((((Cache.empty 0).Add ⟨5, 1⟩).Add ⟨2, 1⟩).Add ⟨9, 1⟩).frames ≠ [] ∧
    (∃ p : Int × Frame,
      p ∈ ((((Cache.empty 0).Add ⟨5, 1⟩).Add ⟨2, 1⟩).Add ⟨9, 1⟩).frames ∧
      ((((Cache.empty 0).Add ⟨5, 1⟩).Add ⟨2, 1⟩).Add ⟨9, 1⟩).GetSmallestFrame = some p.2 ∧
      ∀ q ∈ ((((Cache.empty 0).Add ⟨5, 1⟩).Add ⟨2, 1⟩).Add ⟨9, 1⟩).frames, p.1 ≤ q.1) :=
  ⟨by decide, (C4_smallest_frame _).2 (by decide)⟩

theorem C5_getbytes_cleanup_quantity_witness :
    needsEvict (⟨[(1, ⟨1, 50⟩), (2, ⟨2, 60⟩)], [1, 2], 10⟩ : Cache) ∧
    (⟨[(1, ⟨1, 50⟩), (2, ⟨2, 60⟩)], [1, 2], 10⟩ : Cache).GetBytes
      = ([((1 : Int), (⟨1, 50⟩ : Frame)), (2, ⟨2, 60⟩)].map (fun p => p.2.byte_size)).sum ∧
    Cache.CleanUp (⟨[(1, ⟨1, 50⟩), (2, ⟨2, 60⟩)], [1, 2], 10⟩ : Cache)
      ≠ (⟨[(1, ⟨1, 50⟩), (2, ⟨2, 60⟩)], [1, 2], 10⟩ : Cache) :=
  ⟨by decide, (C5_getbytes_cleanup_quantity _).1,
   (C5_getbytes_cleanup_quantity _).2.2 (by decide)⟩

theorem C6_readd_replaces_promotes_witness :
    WF ((Cache.empty 0).Add ⟨4, 10⟩) ∧
    (4 : Int) ∈ keys ((Cache.empty 0).Add ⟨4, 10⟩) ∧
    ((((Cache.empty 0).Add ⟨4, 10⟩).Add ⟨4, 99⟩).GetFrame 4 = some ⟨4, 99⟩ ∧
     (((Cache.empty 0).Add ⟨4, 10⟩).Add ⟨4, 99⟩).frame_numbers.head? = some 4 ∧
     WF (((Cache.empty 0).Add ⟨4, 10⟩).Add ⟨4, 99⟩)) :=
  ⟨by decide, by decide,
   C6_readd_replaces_promotes ((Cache.empty 0).Add ⟨4, 10⟩) ⟨4, 99⟩ (by decide) (by decide)⟩

theorem C7_getframe_miss_semantics_witness :
    (keys ((Cache.empty 0).Add ⟨6, 2⟩)).Nodup ∧
    ((((Cache.empty 0).Add ⟨6, 2⟩).GetFrame 7 = some ⟨6, 2⟩ ↔
        ((7 : Int), (⟨6, 2⟩ : Frame)) ∈ ((Cache.empty 0).Add ⟨6, 2⟩).frames) ∧
      (((Cache.empty 0).Add ⟨6, 2⟩).GetFrame 7 = none ↔
        (7 : Int) ∉ keys ((Cache.empty 0).Add ⟨6, 2⟩)) ∧
      (((Cache.empty 0).Add ⟨6, 2⟩).GetFrameRun 7).2 = (Cache.empty 0).Add ⟨6, 2⟩) :=
  ⟨by decide, C7_getframe_miss_semantics _ 7 ⟨6, 2⟩ (by decide)⟩

theorem C8_negative_budget_fails_witness :
    Cache.create (-5) = Except.error "Cache: negative max_bytes budget" ∧
    Cache.create 0 = Except.ok (Cache.empty 0) :=
  ⟨(C8_negative_budget_fails (-5)).1 (by decide),
   (C8_negative_budget_fails 0).2 (by decide)⟩

theorem C9_movetofront_noop_idempotent_witness :
    (⟨[(3, ⟨3, 1⟩), (5, ⟨5, 1⟩)], [3, 5], 0⟩ : Cache).MoveToFront 9
      = (⟨[(3, ⟨3, 1⟩), (5, ⟨5, 1⟩)], [3, 5], 0⟩ : Cache) ∧
    (((⟨[(3, ⟨3, 1⟩), (5, ⟨5, 1⟩)], [3, 5], 0⟩ : Cache).MoveToFront 5).frame_numbers
        = 5 :: ([3, 5] : List Int).erase 5 ∧
      ((⟨[(3, ⟨3, 1⟩), (5, ⟨5, 1⟩)], [3, 5], 0⟩ : Cache).MoveToFront 5).frames
        = (⟨[(3, ⟨3, 1⟩), (5, ⟨5, 1⟩)], [3, 5], 0⟩ : Cache).frames) ∧
    ((⟨[(3, ⟨3, 1⟩), (5, ⟨5, 1⟩)], [3, 5], 0⟩ : Cache).MoveToFront 5).MoveToFront 5
      = (⟨[(3, ⟨3, 1⟩), (5, ⟨5, 1⟩)], [3, 5], 0⟩ : Cache).MoveToFront 5 :=
  ⟨(C9_movetofront_noop_idempotent ⟨[(3, ⟨3, 1⟩), (5, ⟨5, 1⟩)], [3, 5], 0⟩ 9).1 (by decide),
   (C9_movetofront_noop_idempotent ⟨[(3, ⟨3, 1⟩), (5, ⟨5, 1⟩)], [3, 5], 0⟩ 5).2.1 (by decide),
   (C9_movetofront_noop_idempotent ⟨[(3, ⟨3, 1⟩), (5, ⟨5, 1⟩)], [3, 5], 0⟩ 5).2.2⟩

theorem C10_queries_pure_witness :
    ((⟨[(1, ⟨1, 4⟩)], [1], 0⟩ : Cache).CountRun.2 = (⟨[(1, ⟨1, 4⟩)], [1], 0⟩ : Cache) ∧
     (⟨[(1, ⟨1, 4⟩)], [1], 0⟩ : Cache).GetBytesRun.2 = (⟨[(1, ⟨1, 4⟩)], [1], 0⟩ : Cache) ∧
     (⟨[(1, ⟨1, 4⟩)], [1], 0⟩ : Cache).GetSmallestFrameRun.2
        = (⟨[(1, ⟨1, 4⟩)], [1], 0⟩ : Cache)) ∧
    ((⟨[(1, ⟨1, 4⟩)], [9], 77⟩ : Cache).GetSmallestFrame
        = (⟨[(1, ⟨1, 4⟩)], [1], 0⟩ : Cache).GetSmallestFrame ∧
     (⟨[(1, ⟨1, 4⟩)], [9], 77⟩ : Cache).GetBytes
        = (⟨[(1, ⟨1, 4⟩)], [1], 0⟩ : Cache).GetBytes) ∧
    (⟨[], [1], 5⟩ : Cache).Count = (⟨[(1, ⟨1, 4⟩)], [1], 0⟩ : Cache).Count :=
  ⟨(C10_queries_pure _).1,
   (C10_queries_pure _).2.1 _ (by rfl),
   (C10_queries_pure _).2.2 _ (by rfl)⟩

end OpenShot
